import Mathlib

/-!
Verification of the alert-state engine of the `wake-me-up` repository.

The Go source (`cmd/wake-me-up/alert.go`, `cmd/wake-me-up/app.go`,
`cmd/wake-me-up/webhook.go`) is shallowly embedded below.  Go maps become
association lists (Go map keys are unique, so key-`Nodup` hypotheses appear
where a statement depends on that), `time.Time` becomes a `Nat` (UnixNano;
`After` is `>`), the mutex and the sound-process fields are omitted (no
concurrency is modelled), and `time.Now()` becomes an explicit timestamp
argument threaded into the ingest operation.
-/

namespace WakeMeUp

/-- Alert payload (`alert.go`): `Status` and `Labels`; the display-only
fields `StartsAt`, `EndsAt`, `GeneratorURL` default to the Go zero values. -/
structure Alert where
  status : String
  labels : List (String × String)
  startsAt : Nat := 0
  endsAt : Option Nat := none
  generatorURL : String := ""
deriving DecidableEq

/-- `webhook.go` `AlertEntry`: an alert wrapped with an id and receipt time. -/
structure AlertEntry where
  id : String
  timestamp : Nat
  alert : Alert
deriving DecidableEq

/-- `webhook.go` `WebhookPayload`; only `Status` and `Alerts` are ever read
by the engine (the remaining JSON fields are transport metadata never used
by `AddWebhook` or its callees). -/
structure WebhookPayload where
  status : String
  alerts : List Alert
deriving DecidableEq

/-- `app.go` `AppState`: the entry list (newest first), the bound, and the
acknowledgement map.  Go's `acknowledged map[string]bool` only ever stores
`true`, so it is a set of ids, modelled as a list whose `contains` is the Go
map read. -/
structure AppState where
  alerts : List AlertEntry
  maxSize : Nat
  acknowledged : List String
deriving DecidableEq

/-- `alert.go` `alertsMatch`: bidirectional label comparison guarded by
non-emptiness and equal size. -/
def alertsMatch (resolvedAlert firingAlert : Alert) : Bool :=
  if resolvedAlert.labels.length == 0 || firingAlert.labels.length == 0 then false
  else if resolvedAlert.labels.length != firingAlert.labels.length then false
  else
    (resolvedAlert.labels.all fun kv =>
      match firingAlert.labels.lookup kv.1 with
      | some firingValue => firingValue == kv.2
      | none => false) &&
    (firingAlert.labels.all fun kv =>
      match resolvedAlert.labels.lookup kv.1 with
      | some resolvedValue => resolvedValue == kv.2
      | none => false)

/-- `app.go` `NewAppState`. -/
def NewAppState (maxSize : Nat) : AppState :=
  AppState.mk [] maxSize []

/-- `app.go` `hasResolvedAlerts`. -/
def hasResolvedAlerts (alerts : List Alert) : Bool :=
  alerts.any fun alert => alert.status == "resolved"

/-- The per-entry decision of the loop of `removeMatchingFiringAlerts`: the
first resolved alert of the batch matching a firing entry, if any (the Go
inner loop with its `break`). -/
def recFind (resolved : List Alert) (entry : AlertEntry) : Option Alert :=
  if entry.alert.status == "firing" then
    resolved.find? fun resolvedAlert => alertsMatch resolvedAlert entry.alert
  else none

/-- One iteration of the entry loop of `app.go` `removeMatchingFiringAlerts`;
the accumulator carries `filtered`, the acknowledgement map, and
`matchedResolvedAlerts`, in the order the Go loop updates them. -/
def reconcileStep (resolved : List Alert)
    (st : List AlertEntry × List String × List Alert) (entry : AlertEntry) :
    List AlertEntry × List String × List Alert :=
  match recFind resolved entry with
  | some matchedResolvedAlert =>
      (st.1, st.2.1.filter fun x => x != entry.id, st.2.2 ++ [matchedResolvedAlert])
  | none => (st.1 ++ [entry], st.2.1, st.2.2)

/-- `app.go` `removeMatchingFiringAlerts`: removes every firing entry
matched by some resolved alert of the batch and returns the resolved alerts
that matched (one copy per removed entry, the first matching one each
time). -/
def removeMatchingFiringAlerts (a : AppState) (resolvedAlerts : List Alert) :
    AppState × List Alert :=
  let resolved := resolvedAlerts.filter fun alert => alert.status == "resolved"
  if resolved.isEmpty then (a, [])
  else
    let st := a.alerts.foldl (reconcileStep resolved) ([], a.acknowledged, [])
    (AppState.mk st.1 a.maxSize st.2.1, st.2.2)

/-- `fmt.Sprintf("%d-%d", baseID, i)` used for entry ids in `AddWebhook`. -/
def mkId (baseID i : Nat) : String :=
  Nat.repr baseID ++ "-" ++ Nat.repr i

/-- The entry-creation loop of `AddWebhook`: each accepted alert is
prepended to the collection; a resolved alert is skipped unless it matches
one of `matchedResolvedAlerts`.  The `Nat` of each pair is the Go range
index used to build the id. -/
def addEntries (timestamp : Nat) (matchedResolvedAlerts : List Alert) :
    List (Nat × Alert) → List AlertEntry → List AlertEntry
  | [], acc => acc
  | (i, alert) :: rest, acc =>
    if alert.status == "resolved"
        && !(matchedResolvedAlerts.any fun m => alertsMatch alert m) then
      addEntries timestamp matchedResolvedAlerts rest acc
    else
      addEntries timestamp matchedResolvedAlerts rest
        (AlertEntry.mk (mkId timestamp i) timestamp alert :: acc)

/-- Steps 1-3 of `AddWebhook`: reconciliation followed by the
entry-creation loop, before the `maxSize` truncation. -/
def ingestStep (a : AppState) (timestamp : Nat) (payload : WebhookPayload) :
    AppState :=
  let pr :=
    if payload.status == "resolved" || hasResolvedAlerts payload.alerts then
      removeMatchingFiringAlerts a payload.alerts
    else (a, [])
  AppState.mk (addEntries timestamp pr.2 payload.alerts.enum pr.1.alerts)
    a.maxSize pr.1.acknowledged

/-- `app.go` `AddWebhook` (the sound side effect is not modelled).  The Go
`time.Now()` becomes the explicit `timestamp` argument; its `UnixNano` is
the same value since time is modelled as the nanosecond count itself. -/
def AddWebhook (a : AppState) (timestamp : Nat) (payload : WebhookPayload) :
    AppState :=
  let b := ingestStep a timestamp payload
  AppState.mk
    (if b.alerts.length > a.maxSize then b.alerts.take a.maxSize else b.alerts)
    a.maxSize b.acknowledged

/-- `app.go` `getAlertPriority`. -/
def getAlertPriority (status : String) (acknowledged : Bool) : Nat :=
  if status == "firing" && !acknowledged then 0
  else if status == "firing" && acknowledged then 1
  else 2

/-- The ordering realising the `sort.Slice` comparison of `GetAlerts`
(`x` may be placed at or before `y`): strictly smaller priority, or equal
priority and a timestamp not older.  `sort.Slice` guarantees only that its
output is sorted for the given `less`; it is modelled by `mergeSort`, which
sorts for the same ordering. -/
def getAlertsLe (a : AppState) (x y : AlertEntry) : Bool :=
  let px := getAlertPriority x.alert.status (a.acknowledged.contains x.id)
  let py := getAlertPriority y.alert.status (a.acknowledged.contains y.id)
  decide (px < py) || (px == py && decide (y.timestamp ≤ x.timestamp))

/-- `app.go` `GetAlerts` (the snapshot read). -/
def GetAlerts (a : AppState) : List AlertEntry :=
  a.alerts.mergeSort (getAlertsLe a)

/-- `app.go` `HasUnacknowledgedAlerts` (the spec's
`HasUnacknowledgedFiring`). -/
def HasUnacknowledgedAlerts (a : AppState) : Bool :=
  a.alerts.any fun entry =>
    !(a.acknowledged.contains entry.id) && entry.alert.status == "firing"

/-- `app.go` `Acknowledge` (Go map insert; inserting a present key is a
no-op on the key set). -/
def Acknowledge (a : AppState) (alertID : String) : AppState :=
  AppState.mk a.alerts a.maxSize
    (if a.acknowledged.contains alertID then a.acknowledged
     else alertID :: a.acknowledged)

/-- One iteration of the loop of `app.go` `ClearAcknowledgedAndResolved`;
the accumulator carries `filtered`, the acknowledgement map, and
`clearedCount`.  The acknowledgement read uses the current map, as in Go. -/
def clearStep (st : List AlertEntry × List String × Nat) (entry : AlertEntry) :
    List AlertEntry × List String × Nat :=
  if entry.alert.status == "firing" && !(st.2.1.contains entry.id) then
    (st.1 ++ [entry], st.2.1, st.2.2)
  else
    (st.1, st.2.1.filter fun x => x != entry.id, st.2.2 + 1)

/-- `app.go` `ClearAcknowledgedAndResolved`: the new state and the cleared
count. -/
def ClearAcknowledgedAndResolved (a : AppState) : AppState × Nat :=
  let st := a.alerts.foldl clearStep ([], a.acknowledged, 0)
  (AppState.mk st.1 a.maxSize st.2.1, st.2.2)

/-- The operations a caller can invoke on the store (spec section 6):
ingest with its arrival time, acknowledge, clear. -/
inductive Op where
  | ingest (timestamp : Nat) (payload : WebhookPayload)
  | ack (alertID : String)
  | clear
deriving DecidableEq

/-- Apply one operation. -/
def step (a : AppState) : Op → AppState
  | Op.ingest t p => AddWebhook a t p
  | Op.ack alertID => Acknowledge a alertID
  | Op.clear => (ClearAcknowledgedAndResolved a).1

/-- Run a sequence of operations against the store. -/
def run (a : AppState) (ops : List Op) : AppState := ops.foldl step a

/-- Ingest timestamps strictly increase along the sequence, starting at or
above `t0` (the Go code takes them from `time.Now().UnixNano()`, whose
successive reads are assumed distinct). -/
def timesMono : Nat → List Op → Bool
  | _, [] => true
  | t0, Op.ingest t _ :: rest => decide (t0 ≤ t) && timesMono (t + 1) rest
  | t0, _ :: rest => timesMono t0 rest

/-- Every id of a stored entry was minted from a base below `bound`. -/
def IdsBounded (a : AppState) (bound : Nat) : Prop :=
  ∀ e ∈ a.alerts, ∃ b i, e.id = mkId b i ∧ b < bound

/-- Decimal value of a digit character. -/
def digitVal (c : Char) : Nat := c.toNat - 48

/-! Concrete fixtures used by scenario statements below. -/

/-- A firing alert labelled `alertname=A`. -/
def firingA : Alert := Alert.mk "firing" [("alertname", "A")] 0 none ""

/-- A firing alert labelled `alertname=B`. -/
def firingB : Alert := Alert.mk "firing" [("alertname", "B")] 0 none ""

/-- A firing alert labelled `alertname=C`. -/
def firingC : Alert := Alert.mk "firing" [("alertname", "C")] 0 none ""

/-- A resolved alert labelled `alertname=A`. -/
def resolvedA : Alert := Alert.mk "resolved" [("alertname", "A")] 0 none ""

/-- A resolved alert labelled `alertname=B`. -/
def resolvedB : Alert := Alert.mk "resolved" [("alertname", "B")] 0 none ""

/-- The acceptance test of the entry-creation loop of `AddWebhook` (the
negation of its skip condition). -/
def acceptAlert (matchedResolvedAlerts : List Alert) (alert : Alert) : Bool :=
  !(alert.status == "resolved"
    && !(matchedResolvedAlerts.any fun m => alertsMatch alert m))

/-- Fixture: two firing entries with identical labels. -/
def twoFiringState : AppState :=
  AppState.mk [AlertEntry.mk "id1" 1 firingA, AlertEntry.mk "id2" 2 firingA] 100 []

/-- Fixture: the empty store after ingesting one firing `alertname=A`. -/
def c2state1 : AppState :=
  AddWebhook (NewAppState 100) 10 (WebhookPayload.mk "firing" [firingA])

/-- Fixture: `c2state1` after ingesting the matching resolved alert. -/
def c2state2 : AppState :=
  AddWebhook c2state1 20 (WebhookPayload.mk "resolved" [resolvedA])

/-- Fixture: a store holding one firing entry with an empty label mapping. -/
def emptyLabelEntry : AlertEntry :=
  AlertEntry.mk "e1" 1 (Alert.mk "firing" [] 0 none "")

/-- Fixture: the store containing only `emptyLabelEntry`. -/
def emptyLabelState : AppState := AppState.mk [emptyLabelEntry] 100 []

/-- The keep test of the clear loop with respect to an acknowledgement
map: firing and not acknowledged. -/
def clearKeep (ack : List String) (entry : AlertEntry) : Bool :=
  entry.alert.status == "firing" && !(ack.contains entry.id)

/-- Fixture: one unacknowledged firing, one acknowledged firing and one
resolved entry. -/
def clearState : AppState :=
  AppState.mk [AlertEntry.mk "u" 3 firingA, AlertEntry.mk "k" 2 firingB,
    AlertEntry.mk "r" 1 (Alert.mk "resolved" [("alertname", "C")] 0 none "")]
    100 ["k"]

/-- Fixture: a single acknowledged firing entry. -/
def ackedFiringState : AppState :=
  AppState.mk [AlertEntry.mk "f1" 1 firingA] 100 ["f1"]

/-! ## The matching rule -/

/-- Association-list lookup fails exactly when the key is absent. -/
theorem lookup_eq_none_iff {l : List (String × String)} {k : String} :
    l.lookup k = none ↔ k ∉ l.map Prod.fst := by
  induction l with
  | nil => simp
  | cons p tl ih =>
    obtain ⟨k', v'⟩ := p
    by_cases h : k = k'
    · subst h
      simp [List.lookup_cons]
    · have hb : (k == k') = false := beq_eq_false_iff_ne.mpr h
      simp [List.lookup_cons, hb, ih, h]

/-- With unique keys, every stored pair is found by lookup. -/
theorem lookup_eq_some_of_mem {l : List (String × String)}
    (hl : (l.map Prod.fst).Nodup) {k v : String} (hm : (k, v) ∈ l) :
    l.lookup k = some v := by
  induction l with
  | nil => simp at hm
  | cons p tl ih =>
    obtain ⟨k', v'⟩ := p
    simp only [List.map_cons, List.nodup_cons] at hl
    rcases List.mem_cons.mp hm with h | h
    · obtain ⟨hk, hv⟩ := Prod.mk.injEq _ _ _ _ ▸ h
      subst hk; subst hv
      simp [List.lookup_cons]
    · have hne : k ≠ k' := by
        intro hkk
        subst hkk
        exact hl.1 (List.mem_map.mpr ⟨(k, v), h, rfl⟩)
      have hb : (k == k') = false := beq_eq_false_iff_ne.mpr hne
      simp [List.lookup_cons, hb]
      exact ih hl.2 h

/-- A successful lookup returns a stored pair. -/
theorem mem_of_lookup_eq_some {l : List (String × String)} {k v : String}
    (h : l.lookup k = some v) : (k, v) ∈ l := by
  induction l with
  | nil => simp [List.lookup] at h
  | cons p tl ih =>
    obtain ⟨k', v'⟩ := p
    by_cases hk : k = k'
    · subst hk
      simp [List.lookup_cons] at h
      subst h
      exact List.mem_cons_self _ _
    · have hb : (k == k') = false := beq_eq_false_iff_ne.mpr hk
      simp [List.lookup_cons, hb] at h
      exact List.mem_cons_of_mem _ (ih h)

/-- One directional check of `alertsMatch` as a proposition. -/
theorem check_one {m : List (String × String)} {k v : String} :
    ((match m.lookup k with
      | some w => w == v
      | none => false) = true) ↔ m.lookup k = some v := by
  cases h : m.lookup k
  · simp
  · rename_i w
    show (w == v) = true ↔ some w = some v
    simp

/-- Unfolding of `alertsMatch` into its guards and directional checks. -/
theorem alertsMatch_eq_true_iff {r f : Alert} :
    alertsMatch r f = true ↔
      r.labels.length ≠ 0 ∧ f.labels.length ≠ 0 ∧
      r.labels.length = f.labels.length ∧
      (∀ kv ∈ r.labels, f.labels.lookup kv.1 = some kv.2) ∧
      (∀ kv ∈ f.labels, r.labels.lookup kv.1 = some kv.2) := by
  unfold alertsMatch
  by_cases h1 : r.labels.length = 0
  · simp [h1]
  · by_cases h2 : f.labels.length = 0
    · simp [h1, h2]
    · by_cases h3 : r.labels.length = f.labels.length
      · simp [h1, h2, h3]
        exact and_congr
          (forall_congr' fun a => forall_congr' fun b => forall_congr' fun _ => check_one)
          (forall_congr' fun a => forall_congr' fun b => forall_congr' fun _ => check_one)
      · simp [h1, h2, h3]

/-- `alertsMatch` is symmetric in its two arguments. -/
theorem alertsMatch_comm (r f : Alert) : alertsMatch r f = alertsMatch f r := by
  rcases h : alertsMatch r f with _ | _ <;>
    rcases h' : alertsMatch f r with _ | _ <;> try rfl
  · rw [alertsMatch_eq_true_iff] at h'
    rw [Bool.eq_false_iff] at h
    exact absurd (alertsMatch_eq_true_iff.mpr
      ⟨h'.2.1, h'.1, h'.2.2.1.symm, h'.2.2.2.2, h'.2.2.2.1⟩) h
  · rw [alertsMatch_eq_true_iff] at h
    rw [Bool.eq_false_iff] at h'
    exact absurd (alertsMatch_eq_true_iff.mpr
      ⟨h.2.1, h.1, h.2.2.1.symm, h.2.2.2.2, h.2.2.2.1⟩) h'

/-- An alert with an empty label mapping matches nothing. -/
theorem alertsMatch_empty_right {r f : Alert} (h : f.labels = []) :
    alertsMatch r f = false := by
  simp [alertsMatch, h]

/-- C1: the match predicate used by reconciliation returns true for a
resolved alert R and a firing entry F iff their label mappings are equal as
finite maps (same lookup result for every key) and both are non-empty; it
is symmetric, and alerts with empty label mappings never match. -/
theorem claim_C1_alertsMatch :
    (∀ r f : Alert, (r.labels.map Prod.fst).Nodup → (f.labels.map Prod.fst).Nodup →
      (alertsMatch r f = true ↔
        (r.labels ≠ [] ∧ f.labels ≠ [] ∧
          ∀ k, r.labels.lookup k = f.labels.lookup k)))
    ∧ (∀ r f : Alert, alertsMatch r f = alertsMatch f r)
    ∧ (∀ r f : Alert, r.labels = [] ∨ f.labels = [] → alertsMatch r f = false) := by
  refine ⟨?_, alertsMatch_comm, ?_⟩
  · intro r f hr hf
    rw [alertsMatch_eq_true_iff]
    constructor
    · rintro ⟨h1, h2, _, hrf, hfr⟩
      refine ⟨fun h => h1 (by simp [h]), fun h => h2 (by simp [h]), fun k => ?_⟩
      cases hc : r.labels.lookup k with
      | none =>
        cases hd : f.labels.lookup k with
        | none => rfl
        | some v =>
          have h5 := hfr (k, v) (mem_of_lookup_eq_some hd)
          rw [hc] at h5
          exact absurd h5 (by simp)
      | some v =>
        rw [hrf (k, v) (mem_of_lookup_eq_some hc)]
    · rintro ⟨h1, h2, heq⟩
      have hkeys : ∀ k, k ∈ r.labels.map Prod.fst ↔ k ∈ f.labels.map Prod.fst := by
        intro k
        rw [← not_iff_not, ← lookup_eq_none_iff, ← lookup_eq_none_iff, heq k]
      have hperm : List.Perm (r.labels.map Prod.fst) (f.labels.map Prod.fst) :=
        (hr.subperm fun k hk => (hkeys k).mp hk).antisymm
          (hf.subperm fun k hk => (hkeys k).mpr hk)
      have hlen : r.labels.length = f.labels.length := by
        have h6 := hperm.length_eq
        simpa using h6
      refine ⟨fun h => h1 (List.length_eq_zero.mp h),
        fun h => h2 (List.length_eq_zero.mp h), hlen, ?_, ?_⟩
      · rintro ⟨k, v⟩ hm
        rw [← heq k]
        exact lookup_eq_some_of_mem hr hm
      · rintro ⟨k, v⟩ hm
        rw [heq k]
        exact lookup_eq_some_of_mem hf hm
  · intro r f h
    rcases h with h | h <;> simp [alertsMatch, h]

/-- C1 witness: two identically-labelled alerts match. -/
theorem claim_C1_alertsMatch_witness :
    alertsMatch (Alert.mk "resolved" [("alertname", "A")] 0 none "")
      (Alert.mk "firing" [("alertname", "A")] 0 none "") = true :=
  (claim_C1_alertsMatch.1 _ _ (by decide) (by decide)).mpr
    ⟨by decide, by decide, fun k => rfl⟩

/-! ## Characterisation of the reconciliation pass -/

/-- Equality of string comparisons in either order. -/
theorem beq_string_comm (a b : String) : (a == b) = (b == a) := by
  by_cases h : a = b
  · subst h; rfl
  · have h1 : (a == b) = false := beq_eq_false_iff_ne.mpr h
    have h2 : (b == a) = false := beq_eq_false_iff_ne.mpr (Ne.symm h)
    rw [h1, h2]

/-- The loop of `removeMatchingFiringAlerts`, fully characterised: kept
entries are the non-matching ones in order, removed entries' ids are
filtered out of the acknowledgement map, and each removed entry contributes
its first matching resolved alert. -/
theorem reconcile_foldl (resolved : List Alert) :
    ∀ (l : List AlertEntry) (k0 : List AlertEntry) (ack0 : List String)
      (m0 : List Alert),
      l.foldl (reconcileStep resolved) (k0, ack0, m0) =
        (k0 ++ l.filter fun e => (recFind resolved e).isNone,
         ack0.filter fun x =>
           !((l.filter fun e => (recFind resolved e).isSome).any fun e => e.id == x),
         m0 ++ l.filterMap (recFind resolved)) := by
  intro l
  induction l with
  | nil =>
    intro k0 ack0 m0
    simp
  | cons e l ih =>
    intro k0 ack0 m0
    rw [List.foldl_cons]
    cases h : recFind resolved e with
    | none =>
      have hstep : reconcileStep resolved (k0, ack0, m0) e = (k0 ++ [e], ack0, m0) := by
        simp [reconcileStep, h]
      rw [hstep, ih]
      refine Prod.ext ?_ (Prod.ext ?_ ?_)
      · show (k0 ++ [e]) ++ _ = k0 ++ List.filter _ (e :: l)
        rw [List.filter_cons_of_pos (by simp [h]), List.append_assoc]
        rfl
      · show ack0.filter _ = ack0.filter _
        congr 1
        funext x
        rw [List.filter_cons_of_neg (by simp [h])]
      · show m0 ++ _ = m0 ++ List.filterMap _ (e :: l)
        rw [List.filterMap_cons_none h]
    | some r =>
      have hstep : reconcileStep resolved (k0, ack0, m0) e =
          (k0, ack0.filter fun x => x != e.id, m0 ++ [r]) := by
        simp [reconcileStep, h]
      rw [hstep, ih]
      refine Prod.ext ?_ (Prod.ext ?_ ?_)
      · show k0 ++ _ = k0 ++ List.filter _ (e :: l)
        rw [List.filter_cons_of_neg (by simp [h])]
      · show (ack0.filter fun x => x != e.id).filter _ = ack0.filter _
        rw [List.filter_filter]
        refine List.filter_congr fun x _ => ?_
        rw [List.filter_cons_of_pos (by simp [h])]
        show (_ && !(x == e.id)) = !((e.id == x) || _)
        rw [Bool.not_or, beq_string_comm e.id x, Bool.and_comm]
      · show (m0 ++ [r]) ++ _ = m0 ++ List.filterMap _ (e :: l)
        rw [List.filterMap_cons_some h, List.append_assoc]
        rfl

/-- The entries surviving `removeMatchingFiringAlerts`. -/
theorem reconcile_alerts_eq (a : AppState) (rs : List Alert) :
    (removeMatchingFiringAlerts a rs).1.alerts =
      a.alerts.filter fun e =>
        (recFind (rs.filter fun al => al.status == "resolved") e).isNone := by
  unfold removeMatchingFiringAlerts
  by_cases h : (rs.filter fun al => al.status == "resolved").isEmpty
  · have hempty : (rs.filter fun al => al.status == "resolved") = [] :=
      List.isEmpty_iff.mp h
    have hall : ∀ e ∈ a.alerts,
        ((recFind (rs.filter fun al => al.status == "resolved") e).isNone) = true := by
      intro e _
      rw [hempty]
      unfold recFind
      cases hf : e.alert.status == "firing" <;> simp [hf]
    simp only [h, if_true]
    rw [List.filter_eq_self.mpr hall]
  · simp only [h, if_false]
    rw [reconcile_foldl]
    simp

/-- The acknowledgement map after `removeMatchingFiringAlerts`. -/
theorem reconcile_ack_eq (a : AppState) (rs : List Alert) :
    (removeMatchingFiringAlerts a rs).1.acknowledged =
      a.acknowledged.filter fun x =>
        !((a.alerts.filter fun e =>
            (recFind (rs.filter fun al => al.status == "resolved") e).isSome).any
          fun e => e.id == x) := by
  unfold removeMatchingFiringAlerts
  by_cases h : (rs.filter fun al => al.status == "resolved").isEmpty
  · have hempty : (rs.filter fun al => al.status == "resolved") = [] :=
      List.isEmpty_iff.mp h
    have hall : (a.alerts.filter fun e =>
        (recFind (rs.filter fun al => al.status == "resolved") e).isSome) = [] := by
      rw [List.filter_eq_nil_iff]
      intro e _
      rw [hempty]
      unfold recFind
      cases hf : e.alert.status == "firing" <;> simp [hf]
    simp only [h, if_true]
    rw [hall]
    simp
  · simp only [h, if_false]
    rw [reconcile_foldl]
    simp

/-- The `maxSize` field is untouched by reconciliation. -/
theorem reconcile_maxSize_eq (a : AppState) (rs : List Alert) :
    (removeMatchingFiringAlerts a rs).1.maxSize = a.maxSize := by
  unfold removeMatchingFiringAlerts
  by_cases h : (rs.filter fun al => al.status == "resolved").isEmpty <;> simp [h]

/-- The matched-resolved-alert list returned by reconciliation. -/
theorem reconcile_matched_eq (a : AppState) (rs : List Alert) :
    (removeMatchingFiringAlerts a rs).2 =
      a.alerts.filterMap (recFind (rs.filter fun al => al.status == "resolved")) := by
  unfold removeMatchingFiringAlerts
  by_cases h : (rs.filter fun al => al.status == "resolved").isEmpty
  · have hempty : (rs.filter fun al => al.status == "resolved") = [] :=
      List.isEmpty_iff.mp h
    have hall : a.alerts.filterMap
        (recFind (rs.filter fun al => al.status == "resolved")) = [] := by
      rw [List.filterMap_eq_nil_iff]
      intro e _
      rw [hempty]
      unfold recFind
      cases hf : e.alert.status == "firing" <;> simp [hf]
    simp only [h, if_true]
    rw [hall]
  · simp only [h, if_false]
    rw [reconcile_foldl]
    simp

/-- The per-entry removal decision, as the Boolean of the amended C3. -/
theorem recFind_isNone (resolved : List Alert) (e : AlertEntry) :
    (recFind resolved e).isNone =
      !(e.alert.status == "firing" && resolved.any fun r => alertsMatch r e.alert) := by
  unfold recFind
  cases hf : e.alert.status == "firing"
  · simp [hf]
  · simp only [hf, if_true, Bool.true_and]
    cases hr : resolved.find? fun r => alertsMatch r e.alert with
    | none =>
      have := List.find?_eq_none.mp hr
      simp only [Option.isNone_none]
      rw [eq_comm, Bool.not_eq_true', List.any_eq_false]
      intro r hrm
      exact this r hrm
    | some r =>
      have hmem := List.mem_of_find?_eq_some hr
      have hp := List.find?_some hr
      simp only [Option.isNone_some]
      rw [eq_comm, Bool.not_eq_false', List.any_eq_true]
      exact ⟨r, hmem, hp⟩

/-! ## The ingest pipeline -/

/-- Shape of the entry-creation loop: accepted alerts are prepended (so
they end up reversed in front of the prior collection); one new entry per
accepted alert, each carrying the ingest timestamp and an id minted from
its range index. -/
theorem addEntries_shape (t : Nat) (m : List Alert) :
    ∀ (l : List (Nat × Alert)) (acc : List AlertEntry),
      ∃ newEntries, addEntries t m l acc = newEntries ++ acc ∧
        newEntries.length = (l.filter fun q => acceptAlert m q.2).length ∧
        (∀ e ∈ newEntries, e.timestamp = t ∧
          ∃ q ∈ l, e.id = mkId t q.1 ∧ e.alert = q.2 ∧ acceptAlert m q.2 = true) ∧
        List.Sublist (newEntries.map fun e => e.id)
          ((l.map fun q => mkId t q.1).reverse) := by
  intro l
  induction l with
  | nil =>
    intro acc
    exact ⟨[], rfl, by simp, by simp, by simp⟩
  | cons q rest ih =>
    obtain ⟨i, alert⟩ := q
    intro acc
    by_cases h : (alert.status == "resolved"
        && !(m.any fun x => alertsMatch alert x)) = true
    · obtain ⟨new, h1, h2, h3, h4⟩ := ih acc
      refine ⟨new, ?_, ?_, ?_, ?_⟩
      · show addEntries t m ((i, alert) :: rest) acc = _
        simp only [addEntries, h, if_true]
        exact h1
      · rw [h2, List.filter_cons_of_neg (by simp [acceptAlert, h])]
      · intro e he
        obtain ⟨ht, qq, hq, hrest⟩ := h3 e he
        exact ⟨ht, qq, List.mem_cons_of_mem _ hq, hrest⟩
      · refine h4.trans ?_
        rw [List.map_cons, List.reverse_cons]
        exact List.sublist_append_left _ _
    · have hcond : (alert.status == "resolved"
          && !(m.any fun x => alertsMatch alert x)) = false :=
        Bool.eq_false_iff.mpr h
      obtain ⟨new, h1, h2, h3, h4⟩ := ih (AlertEntry.mk (mkId t i) t alert :: acc)
      refine ⟨new ++ [AlertEntry.mk (mkId t i) t alert], ?_, ?_, ?_, ?_⟩
      · show addEntries t m ((i, alert) :: rest) acc = _
        simp only [addEntries, hcond, if_false]
        rw [h1, List.append_assoc]
        rfl
      · rw [List.length_append, h2,
          List.filter_cons_of_pos (by simp [acceptAlert, hcond])]
        simp
      · intro e he
        rcases List.mem_append.mp he with he | he
        · obtain ⟨ht, qq, hq, hrest⟩ := h3 e he
          exact ⟨ht, qq, List.mem_cons_of_mem _ hq, hrest⟩
        · have hee : e = AlertEntry.mk (mkId t i) t alert := by simpa using he
          subst hee
          exact ⟨rfl, (i, alert), List.mem_cons_self _ _, rfl, rfl,
            by simp [acceptAlert, hcond]⟩
      · simp only [List.map_append, List.map_cons, List.map_nil, List.reverse_cons]
        exact h4.append (List.Sublist.refl _)

/-- `AddWebhook` truncates the untruncated collection to the newest
`maxSize` prefix, so the result never exceeds the bound. -/
theorem AddWebhook_alerts_take (a : AppState) (t : Nat) (p : WebhookPayload) :
    (AddWebhook a t p).alerts = (ingestStep a t p).alerts.take a.maxSize ∧
    (AddWebhook a t p).alerts.length ≤ a.maxSize := by
  have h1 : (AddWebhook a t p).alerts =
      (if (ingestStep a t p).alerts.length > a.maxSize then
        (ingestStep a t p).alerts.take a.maxSize
      else (ingestStep a t p).alerts) := rfl
  by_cases h : (ingestStep a t p).alerts.length > a.maxSize
  · rw [h1, if_pos h]
    refine ⟨rfl, ?_⟩
    rw [List.length_take]
    omega
  · rw [h1, if_neg h, List.take_of_length_le (by omega)]
    exact ⟨rfl, by omega⟩

/-- Truncation does not touch the acknowledgement map. -/
theorem AddWebhook_ack (a : AppState) (t : Nat) (p : WebhookPayload) :
    (AddWebhook a t p).acknowledged = (ingestStep a t p).acknowledged := rfl

/-- C6: after every ingest the store retains at most `maxSize` entries and
what is retained is the newest prefix of the untruncated collection (the
dropped entries are the oldest, tail ones); ingesting three firing alerts
with `maxSize = 2` keeps exactly the two most recently ingested entries. -/
theorem claim_C6_truncation :
    (∀ (a : AppState) (t : Nat) (p : WebhookPayload),
      (AddWebhook a t p).alerts.length ≤ a.maxSize ∧
      (AddWebhook a t p).alerts = (ingestStep a t p).alerts.take a.maxSize) ∧
    (AddWebhook (NewAppState 2) 10
        (WebhookPayload.mk "firing" [firingA, firingB, firingC])).alerts =
      [AlertEntry.mk (mkId 10 2) 10 firingC,
       AlertEntry.mk (mkId 10 1) 10 firingB] := by
  refine ⟨fun a t p =>
    ⟨(AddWebhook_alerts_take a t p).2, (AddWebhook_alerts_take a t p).1⟩, ?_⟩
  decide

/-- C3 counterexample: a notification with a single resolved alert removes
two stored firing entries at once (both match it), refuting
at-most-one-removal-per-resolved-alert. -/
theorem claim_C3_counterexample :
    (removeMatchingFiringAlerts twoFiringState [resolvedA]).1.alerts = [] ∧
    twoFiringState.alerts.length = 2 := by decide

/-- C3 amended: the reconciliation pass removes exactly those firing
entries that match at least one resolved alert of the notification — a
single resolved alert removes every matching firing entry (not at most
one), and the entries kept remain in order. -/
theorem claim_C3_amended (a : AppState) (rs : List Alert) :
    (removeMatchingFiringAlerts a rs).1.alerts =
      a.alerts.filter fun e =>
        !(e.alert.status == "firing" &&
          ((rs.filter fun al => al.status == "resolved").any
            fun r => alertsMatch r e.alert)) := by
  rw [reconcile_alerts_eq]
  exact List.filter_congr fun e _ => recFind_isNone _ e

/-- C2 counterexample: after ingesting firing `alertname=A` and then a
notification with the matching resolved alert, the store holds one entry,
not zero. -/
theorem claim_C2_counterexample :
    c2state1.alerts.length = 1 ∧ c2state2.alerts.length = 1 := by decide

/-- C2 amended: the resolved alert removes the matching firing entry but
is itself stored as a new entry: the store ends with exactly one entry,
carrying the resolved alert, the acknowledgement set is empty, and
`HasUnacknowledgedAlerts` (the spec's `HasUnacknowledgedFiring`) is
false. -/
theorem claim_C2_amended :
    c2state2.alerts = [AlertEntry.mk (mkId 20 0) 20 resolvedA] ∧
    c2state2.acknowledged = [] ∧
    HasUnacknowledgedAlerts c2state2 = false := by decide

/-- When no stored entry is removed, reconciliation leaves the state
untouched and reports no matched resolved alert. -/
theorem reconcile_no_match (a : AppState) (rs : List Alert)
    (h : ∀ e ∈ a.alerts,
      recFind (rs.filter fun al => al.status == "resolved") e = none) :
    (removeMatchingFiringAlerts a rs).1.alerts = a.alerts ∧
    (removeMatchingFiringAlerts a rs).1.acknowledged = a.acknowledged ∧
    (removeMatchingFiringAlerts a rs).2 = [] := by
  refine ⟨?_, ?_, ?_⟩
  · rw [reconcile_alerts_eq, List.filter_eq_self.mpr]
    intro e he
    simp [h e he]
  · rw [reconcile_ack_eq]
    have hnil : (a.alerts.filter fun e =>
        (recFind (rs.filter fun al => al.status == "resolved") e).isSome) = [] := by
      rw [List.filter_eq_nil_iff]
      intro e he
      simp [h e he]
    rw [hnil]
    simp
  · rw [reconcile_matched_eq, List.filterMap_eq_nil_iff]
    exact h

/-- With an empty matched list, the acceptance test is just
non-resolvedness. -/
theorem acceptAlert_nil (alert : Alert) :
    acceptAlert [] alert = !(alert.status == "resolved") := by
  simp [acceptAlert]

/-- Filtering the enumerated list on the alert component preserves the
filtered length. -/
theorem enum_filter_length (P : Alert → Bool) (l : List Alert) :
    (l.enum.filter fun q => P q.2).length = (l.filter P).length := by
  rw [← List.countP_eq_length_filter, ← List.countP_eq_length_filter]
  conv_rhs => rw [← List.enumFrom_map_snd 0 l]
  rw [List.countP_map]
  rfl

/-- Matching is transitive. -/
theorem alertsMatch_trans {x y z : Alert} (h1 : alertsMatch x y = true)
    (h2 : alertsMatch y z = true) : alertsMatch x z = true := by
  rw [alertsMatch_eq_true_iff] at h1 h2 ⊢
  obtain ⟨hx0, hy0, hlen1, hxy, hyx⟩ := h1
  obtain ⟨-, hz0, hlen2, hyz, hzy⟩ := h2
  refine ⟨hx0, hz0, hlen1.trans hlen2, ?_, ?_⟩
  · intro kv hkv
    exact hyz _ (mem_of_lookup_eq_some (hxy kv hkv))
  · intro kv hkv
    exact hyx _ (mem_of_lookup_eq_some (hzy kv hkv))

/-- A notification whose resolved alerts all match nothing leaves the
acknowledgement set untouched, creates entries exactly for its non-resolved
alerts, and keeps the prior entries, subject only to the truncation. -/
theorem ingest_no_match_shape (a : AppState) (t : Nat) (p : WebhookPayload)
    (h : ∀ r ∈ p.alerts, r.status = "resolved" →
      ∀ e ∈ a.alerts, e.alert.status = "firing" → alertsMatch r e.alert = false) :
    (AddWebhook a t p).acknowledged = a.acknowledged ∧
    ∃ newEntries,
      (AddWebhook a t p).alerts = (newEntries ++ a.alerts).take a.maxSize ∧
      newEntries.length = (p.alerts.filter fun al => !(al.status == "resolved")).length ∧
      ∀ e ∈ newEntries, e.alert.status ≠ "resolved" := by
  have hnone : ∀ e ∈ a.alerts,
      recFind (p.alerts.filter fun al => al.status == "resolved") e = none := by
    intro e he
    unfold recFind
    by_cases hf : e.alert.status = "firing"
    · have hft : (e.alert.status == "firing") = true := by simp [hf]
      rw [hft, if_pos rfl, List.find?_eq_none]
      intro r hr
      rw [List.mem_filter] at hr
      have hres : r.status = "resolved" := by simpa using hr.2
      simp [h r hr.1 hres e he hf]
    · have hff : (e.alert.status == "firing") = false := beq_eq_false_iff_ne.mpr hf
      rw [hff]
      simp
  have hbranch :
      (ingestStep a t p).acknowledged = a.acknowledged ∧
      (ingestStep a t p).alerts = addEntries t [] p.alerts.enum a.alerts := by
    unfold ingestStep
    by_cases hc : (p.status == "resolved" || hasResolvedAlerts p.alerts) = true
    · obtain ⟨hA, hK, hM⟩ := reconcile_no_match a p.alerts hnone
      simp only [hc, if_true]
      exact ⟨hK, by rw [hM, hA]⟩
    · have hcf : (p.status == "resolved" || hasResolvedAlerts p.alerts) = false :=
        Bool.eq_false_iff.mpr hc
      simp only [hcf, Bool.false_eq_true, if_false]
      exact ⟨trivial, trivial⟩
  obtain ⟨new, hsh1, hsh2, hsh3, -⟩ := addEntries_shape t [] p.alerts.enum a.alerts
  refine ⟨?_, new, ?_, ?_, ?_⟩
  · rw [AddWebhook_ack, hbranch.1]
  · rw [(AddWebhook_alerts_take a t p).1, hbranch.2, hsh1]
  · rw [hsh2, List.filter_congr fun (q : Nat × Alert) _ => acceptAlert_nil q.2]
    exact enum_filter_length (fun al => !(al.status == "resolved")) p.alerts
  · intro e he
    obtain ⟨-, q, -, -, hal, hacc⟩ := hsh3 e he
    rw [hal]
    intro hres
    rw [acceptAlert_nil] at hacc
    simp [hres] at hacc

/-- C4: a resolved alert that matches no stored firing entry fails the
acceptance test of the entry-creation loop, so it creates no entry; and a
notification whose resolved alerts all match nothing leaves the
acknowledgement set untouched, creates entries exactly for its non-resolved
alerts, and the prior entries remain, subject only to the `maxSize`
truncation — in particular a lone unmatched resolved alert ingested into an
empty store leaves it empty. -/
theorem claim_C4_unmatched_resolved :
    (∀ (a : AppState) (p : WebhookPayload), ∀ A ∈ p.alerts,
      A.status = "resolved" →
      (∀ e ∈ a.alerts, e.alert.status = "firing" → alertsMatch A e.alert = false) →
      acceptAlert (removeMatchingFiringAlerts a p.alerts).2 A = false) ∧
    (∀ (a : AppState) (t : Nat) (p : WebhookPayload),
      (∀ r ∈ p.alerts, r.status = "resolved" →
        ∀ e ∈ a.alerts, e.alert.status = "firing" → alertsMatch r e.alert = false) →
      (AddWebhook a t p).acknowledged = a.acknowledged ∧
      ∃ newEntries,
        (AddWebhook a t p).alerts = (newEntries ++ a.alerts).take a.maxSize ∧
        newEntries.length =
          (p.alerts.filter fun al => !(al.status == "resolved")).length ∧
        ∀ e ∈ newEntries, e.alert.status ≠ "resolved") := by
  constructor
  · intro a p A hA hres hnom
    have hmnone : ∀ M ∈ (removeMatchingFiringAlerts a p.alerts).2,
        alertsMatch A M = false := by
      intro M hM
      rw [reconcile_matched_eq] at hM
      obtain ⟨e, he, hrec⟩ := List.mem_filterMap.mp hM
      unfold recFind at hrec
      cases hf : e.alert.status == "firing"
      · rw [hf] at hrec
        simp at hrec
      · rw [hf] at hrec
        simp only [if_pos rfl] at hrec
        have hMe := List.find?_some hrec
        cases hAM : alertsMatch A M
        · rfl
        · have hAe := alertsMatch_trans hAM hMe
          have hef : e.alert.status = "firing" := by simpa using hf
          rw [hnom e he hef] at hAe
          exact absurd hAe (by simp)
    have hst : (A.status == "resolved") = true := by simp [hres]
    unfold acceptAlert
    rw [hst, Bool.true_and, Bool.not_not, List.any_eq_false]
    intro M hM
    simp [hmnone M hM]
  · intro a t p h
    exact ingest_no_match_shape a t p h

/-- C4 witness: ingesting a lone unmatched resolved alert into an empty
store leaves it empty. -/
theorem claim_C4_unmatched_resolved_witness :
    (AddWebhook (NewAppState 100) 10
      (WebhookPayload.mk "resolved" [resolvedB])).alerts = [] := by
  obtain ⟨-, newEntries, hpost, hlen, -⟩ :=
    claim_C4_unmatched_resolved.2 (NewAppState 100) 10
      (WebhookPayload.mk "resolved" [resolvedB]) (by decide)
  have hnil : newEntries = [] := List.length_eq_zero.mp (by rw [hlen]; decide)
  rw [hpost, hnil]
  rfl

/-- An entry with an empty label mapping is never selected for removal. -/
theorem recFind_empty_labels {resolved : List Alert} {e : AlertEntry}
    (h : e.alert.labels = []) : recFind resolved e = none := by
  unfold recFind
  by_cases hf : e.alert.status = "firing"
  · have hft : (e.alert.status == "firing") = true := by simp [hf]
    rw [hft, if_pos rfl, List.find?_eq_none]
    intro r _
    simp [alertsMatch_empty_right h]
  · have hff : (e.alert.status == "firing") = false := beq_eq_false_iff_ne.mpr hf
    rw [hff]
    simp

/-- C10: a stored entry whose alert has an empty label mapping survives
every reconciliation pass, and after any ingest it is still present unless
the store was truncated down to `maxSize`. -/
theorem claim_C10_empty_labels :
    (∀ (a : AppState) (rs : List Alert), ∀ e ∈ a.alerts,
      e.alert.labels = [] → e ∈ (removeMatchingFiringAlerts a rs).1.alerts) ∧
    (∀ (a : AppState) (t : Nat) (p : WebhookPayload), ∀ e ∈ a.alerts,
      e.alert.labels = [] →
      e ∈ (AddWebhook a t p).alerts ∨
        (AddWebhook a t p).alerts.length = a.maxSize) := by
  have hkeep : ∀ (a : AppState) (rs : List Alert), ∀ e ∈ a.alerts,
      e.alert.labels = [] → e ∈ (removeMatchingFiringAlerts a rs).1.alerts := by
    intro a rs e he hl
    rw [reconcile_alerts_eq]
    exact List.mem_filter.mpr ⟨he, by simp [recFind_empty_labels hl]⟩
  refine ⟨hkeep, ?_⟩
  intro a t p e he hl
  have hmem : e ∈ (ingestStep a t p).alerts := by
    unfold ingestStep
    by_cases hc : (p.status == "resolved" || hasResolvedAlerts p.alerts) = true
    · simp only [hc, if_true]
      obtain ⟨new, h1, -, -, -⟩ := addEntries_shape t
        (removeMatchingFiringAlerts a p.alerts).2 p.alerts.enum
        (removeMatchingFiringAlerts a p.alerts).1.alerts
      show e ∈ addEntries t _ p.alerts.enum _
      rw [h1]
      exact List.mem_append_right _ (hkeep a p.alerts e he hl)
    · have hcf : (p.status == "resolved" || hasResolvedAlerts p.alerts) = false :=
        Bool.eq_false_iff.mpr hc
      simp only [hcf, Bool.false_eq_true, if_false]
      obtain ⟨new, h1, -, -, -⟩ := addEntries_shape t [] p.alerts.enum a.alerts
      show e ∈ addEntries t _ p.alerts.enum _
      rw [h1]
      exact List.mem_append_right _ he
  by_cases htr : (ingestStep a t p).alerts.length > a.maxSize
  · right
    rw [(AddWebhook_alerts_take a t p).1, List.length_take]
    omega
  · left
    rw [(AddWebhook_alerts_take a t p).1, List.take_of_length_le (by omega)]
    exact hmem

/-- C10 witness: an empty-labelled firing entry survives the ingestion of
a resolved notification. -/
theorem claim_C10_empty_labels_witness :
    emptyLabelEntry ∈ (AddWebhook emptyLabelState 10
        (WebhookPayload.mk "resolved" [resolvedA])).alerts ∨
      (AddWebhook emptyLabelState 10
        (WebhookPayload.mk "resolved" [resolvedA])).alerts.length =
        emptyLabelState.maxSize :=
  claim_C10_empty_labels.2 emptyLabelState 10
    (WebhookPayload.mk "resolved" [resolvedA]) emptyLabelEntry
    (by decide) (by decide)

/-! ## The clear operation -/

/-- Filtering away a different id does not change membership. -/
theorem contains_filter_ne {ack : List String} {y x : String} (h : y ≠ x) :
    (ack.filter fun z => z != x).contains y = ack.contains y := by
  cases hc : ack.contains y
  · rw [List.contains_eq_any_beq] at hc ⊢
    rw [List.any_eq_false] at hc ⊢
    intro z hz
    exact hc z (List.mem_filter.mp hz).1
  · rw [List.contains_eq_any_beq] at hc ⊢
    rw [List.any_eq_true] at hc ⊢
    obtain ⟨z, hz, hbeq⟩ := hc
    have hyz : y = z := by simpa using hbeq
    refine ⟨z, List.mem_filter.mpr ⟨hz, ?_⟩, hbeq⟩
    subst hyz
    simpa using h

/-- The clear loop, characterised for stores with pairwise-distinct ids:
kept entries are the firing-and-unacknowledged ones (with respect to the
initial map), removed entries' ids are filtered out of the map, and the
count advances once per removed entry. -/
theorem clear_foldl :
    ∀ (l : List AlertEntry) (k0 : List AlertEntry) (ack0 : List String) (c0 : Nat),
      ((l.map fun e => e.id).Nodup) →
      l.foldl clearStep (k0, ack0, c0) =
        (k0 ++ l.filter (clearKeep ack0),
         ack0.filter fun x =>
           !((l.filter fun e => !(clearKeep ack0 e)).any fun e => e.id == x),
         c0 + (l.filter fun e => !(clearKeep ack0 e)).length) := by
  intro l
  induction l with
  | nil =>
    intro k0 ack0 c0 _
    simp
  | cons e l ih =>
    intro k0 ack0 c0 hnd
    rw [List.map_cons, List.nodup_cons] at hnd
    obtain ⟨hid, hnd⟩ := hnd
    rw [List.foldl_cons]
    by_cases h : clearKeep ack0 e = true
    · have hT : (e.alert.status == "firing" && !(ack0.contains e.id)) = true := h
      have hstep : clearStep (k0, ack0, c0) e = (k0 ++ [e], ack0, c0) := by
        show (if (e.alert.status == "firing" && !(ack0.contains e.id)) = true then
            (k0 ++ [e], ack0, c0)
          else (k0, ack0.filter fun x => x != e.id, c0 + 1)) = (k0 ++ [e], ack0, c0)
        rw [if_pos hT]
      rw [hstep, ih _ _ _ hnd]
      refine Prod.ext ?_ (Prod.ext ?_ ?_)
      · show (k0 ++ [e]) ++ _ = k0 ++ List.filter _ (e :: l)
        rw [List.filter_cons_of_pos h, List.append_assoc]
        rfl
      · show ack0.filter _ = ack0.filter _
        congr 1
        funext x
        rw [List.filter_cons_of_neg (by simp [h])]
      · show c0 + _ = c0 + (List.filter _ (e :: l)).length
        rw [List.filter_cons_of_neg (by simp [h])]
    · have hF : clearKeep ack0 e = false := Bool.eq_false_iff.mpr h
      have hFlit : (e.alert.status == "firing" && !(ack0.contains e.id)) = false := hF
      have hstep : clearStep (k0, ack0, c0) e =
          (k0, ack0.filter fun x => x != e.id, c0 + 1) := by
        show (if (e.alert.status == "firing" && !(ack0.contains e.id)) = true then
            (k0 ++ [e], ack0, c0)
          else (k0, ack0.filter fun x => x != e.id, c0 + 1)) =
          (k0, ack0.filter fun x => x != e.id, c0 + 1)
        rw [if_neg fun hc => Bool.false_ne_true (hFlit.symm.trans hc)]
      have hcongr : ∀ e' ∈ l,
          clearKeep (ack0.filter fun x => x != e.id) e' = clearKeep ack0 e' := by
        intro e' he'
        have hne : e'.id ≠ e.id := by
          intro hcontra
          exact hid (hcontra ▸ List.mem_map.mpr ⟨e', he', rfl⟩)
        unfold clearKeep
        rw [contains_filter_ne hne]
      rw [hstep, ih _ _ _ hnd]
      refine Prod.ext ?_ (Prod.ext ?_ ?_)
      · show k0 ++ _ = k0 ++ List.filter _ (e :: l)
        rw [List.filter_cons_of_neg (by simp [hF]), List.filter_congr hcongr]
      · show (ack0.filter fun x => x != e.id).filter _ = ack0.filter _
        have hinner : (l.filter fun e' => !(clearKeep (ack0.filter fun x => x != e.id) e')) =
            l.filter fun e' => !(clearKeep ack0 e') :=
          List.filter_congr fun e' he' => by rw [hcongr e' he']
        rw [hinner, List.filter_filter]
        refine List.filter_congr fun x _ => ?_
        rw [List.filter_cons_of_pos (by simp [hF])]
        show (_ && !(x == e.id)) = !((e.id == x) || _)
        rw [Bool.not_or, beq_string_comm e.id x, Bool.and_comm]
      · show c0 + 1 + _ = c0 + (List.filter _ (e :: l)).length
        have hinner : (l.filter fun e' => !(clearKeep (ack0.filter fun x => x != e.id) e')) =
            l.filter fun e' => !(clearKeep ack0 e') :=
          List.filter_congr fun e' he' => by rw [hcongr e' he']
        rw [hinner, List.filter_cons_of_pos (by simp [hF])]
        simp only [List.length_cons]
        omega

/-- The entries kept by `ClearAcknowledgedAndResolved`. -/
theorem clear_alerts_eq (a : AppState)
    (h : (a.alerts.map fun e => e.id).Nodup) :
    (ClearAcknowledgedAndResolved a).1.alerts =
      a.alerts.filter (clearKeep a.acknowledged) := by
  show (a.alerts.foldl clearStep ([], a.acknowledged, 0)).1 = _
  rw [clear_foldl a.alerts [] a.acknowledged 0 h]
  rfl

/-- The acknowledgement map after `ClearAcknowledgedAndResolved`. -/
theorem clear_ack_eq (a : AppState)
    (h : (a.alerts.map fun e => e.id).Nodup) :
    (ClearAcknowledgedAndResolved a).1.acknowledged =
      a.acknowledged.filter fun x =>
        !((a.alerts.filter fun e => !(clearKeep a.acknowledged e)).any
          fun e => e.id == x) := by
  show (a.alerts.foldl clearStep ([], a.acknowledged, 0)).2.1 = _
  rw [clear_foldl a.alerts [] a.acknowledged 0 h]

/-- The count returned by `ClearAcknowledgedAndResolved`. -/
theorem clear_count_eq (a : AppState)
    (h : (a.alerts.map fun e => e.id).Nodup) :
    (ClearAcknowledgedAndResolved a).2 =
      (a.alerts.filter fun e => !(clearKeep a.acknowledged e)).length := by
  show (a.alerts.foldl clearStep ([], a.acknowledged, 0)).2.2 = _
  rw [clear_foldl a.alerts [] a.acknowledged 0 h]
  simp

/-- C5: in a store with pairwise-distinct ids, clearing keeps exactly the
entries that were firing and unacknowledged, deletes every removed entry's
id from the acknowledgement set, and returns the number of entries
removed. -/
theorem claim_C5_clear (a : AppState)
    (h : (a.alerts.map fun e => e.id).Nodup) :
    (ClearAcknowledgedAndResolved a).1.alerts =
      (a.alerts.filter fun e =>
        e.alert.status == "firing" && !(a.acknowledged.contains e.id)) ∧
    (∀ e ∈ a.alerts, e ∉ (ClearAcknowledgedAndResolved a).1.alerts →
      e.id ∉ (ClearAcknowledgedAndResolved a).1.acknowledged) ∧
    (ClearAcknowledgedAndResolved a).2 +
      (ClearAcknowledgedAndResolved a).1.alerts.length = a.alerts.length := by
  refine ⟨clear_alerts_eq a h, ?_, ?_⟩
  · intro e he hout
    rw [clear_alerts_eq a h] at hout
    have hF : clearKeep a.acknowledged e = false := by
      cases hk : clearKeep a.acknowledged e
      · rfl
      · exact absurd (List.mem_filter.mpr ⟨he, hk⟩) hout
    intro hmem
    rw [clear_ack_eq a h] at hmem
    have h2 := (List.mem_filter.mp hmem).2
    rw [Bool.not_eq_eq_eq_not, Bool.not_true, List.any_eq_false] at h2
    exact absurd (by simp) (h2 e (List.mem_filter.mpr ⟨he, by simp [hF]⟩))
  · rw [clear_count_eq a h, clear_alerts_eq a h]
    have := List.length_eq_length_filter_add (l := a.alerts) (clearKeep a.acknowledged)
    have heq : (a.alerts.filter fun e => !(clearKeep a.acknowledged e)) =
        (a.alerts.filter (fun e => !(clearKeep a.acknowledged e) : AlertEntry → Bool)) := rfl
    omega

/-- C5 witness: a concrete clear keeps only the unacknowledged firing
entry. -/
theorem claim_C5_clear_witness :
    (ClearAcknowledgedAndResolved clearState).1.alerts =
      [AlertEntry.mk "u" 3 firingA] := by
  have h := claim_C5_clear clearState (by decide)
  rw [h.1]
  decide

/-! ## The acknowledgement-set invariant -/

/-- C8 counterexample: acknowledging an id with no stored entry is
accepted, leaving an id in the acknowledgement set that belongs to no
stored entry. -/
theorem claim_C8_counterexample :
    "x" ∈ (run (NewAppState 100) [Op.ack "x"]).acknowledged ∧
    (run (NewAppState 100) [Op.ack "x"]).alerts = [] := by decide

/-- C8 amended: the entry-removing passes do clean up — reconciliation
deletes every removed entry's id from the acknowledgement set, and so does
clearing (in a store with pairwise-distinct ids) — but `Acknowledge`
inserts ids regardless of whether any stored entry carries them, and the
`maxSize` truncation removes entries without touching the set, so ids
without a stored entry can remain. -/
theorem claim_C8_amended :
    (∀ (a : AppState) (rs : List Alert), ∀ e ∈ a.alerts,
      e ∉ (removeMatchingFiringAlerts a rs).1.alerts →
      e.id ∉ (removeMatchingFiringAlerts a rs).1.acknowledged) ∧
    (∀ a : AppState, ((a.alerts.map fun e => e.id).Nodup) → ∀ e ∈ a.alerts,
      e ∉ (ClearAcknowledgedAndResolved a).1.alerts →
      e.id ∉ (ClearAcknowledgedAndResolved a).1.acknowledged) := by
  constructor
  · intro a rs e he hout
    rw [reconcile_alerts_eq] at hout
    have hS : (recFind (rs.filter fun al => al.status == "resolved") e).isSome = true := by
      cases ho : recFind (rs.filter fun al => al.status == "resolved") e
      · exact absurd (List.mem_filter.mpr ⟨he, by rw [ho]; rfl⟩) hout
      · rfl
    intro hmem
    rw [reconcile_ack_eq] at hmem
    have h2 := (List.mem_filter.mp hmem).2
    rw [Bool.not_eq_eq_eq_not, Bool.not_true, List.any_eq_false] at h2
    exact absurd (by simp) (h2 e (List.mem_filter.mpr ⟨he, hS⟩))
  · intro a h e he hout
    intro hmem
    rw [clear_alerts_eq a h] at hout
    have hF : clearKeep a.acknowledged e = false := by
      cases hk : clearKeep a.acknowledged e
      · rfl
      · exact absurd (List.mem_filter.mpr ⟨he, hk⟩) hout
    rw [clear_ack_eq a h] at hmem
    have h2 := (List.mem_filter.mp hmem).2
    rw [Bool.not_eq_eq_eq_not, Bool.not_true, List.any_eq_false] at h2
    exact absurd (by simp) (h2 e (List.mem_filter.mpr ⟨he, by simp [hF]⟩))

/-- C8 witness: a matched acknowledged firing entry is removed together
with its acknowledgement. -/
theorem claim_C8_amended_witness :
    (AlertEntry.mk "f1" 1 firingA).id ∉
      (removeMatchingFiringAlerts ackedFiringState [resolvedA]).1.acknowledged :=
  claim_C8_amended.1 ackedFiringState [resolvedA]
    (AlertEntry.mk "f1" 1 firingA) (by decide) (by decide)

/-! ## The snapshot read -/

/-- `getAlertsLe` is transitive. -/
theorem getAlertsLe_trans (a : AppState) (x y z : AlertEntry)
    (hxy : getAlertsLe a x y) (hyz : getAlertsLe a y z) : getAlertsLe a x z := by
  simp only [getAlertsLe, Bool.or_eq_true, Bool.and_eq_true, decide_eq_true_eq,
    beq_iff_eq] at hxy hyz ⊢
  omega

/-- `getAlertsLe` is total. -/
theorem getAlertsLe_total (a : AppState) (x y : AlertEntry) :
    getAlertsLe a x y || getAlertsLe a y x := by
  simp only [getAlertsLe, Bool.or_eq_true, Bool.and_eq_true, decide_eq_true_eq,
    beq_iff_eq]
  omega

/-- C9: the snapshot returns a permutation of the stored entries in which
priority bands never decrease along the list (unacknowledged-firing 0
before acknowledged-firing 1 before resolved 2) and, whenever two entries
share a band, the later one's receipt time is not newer. -/
theorem claim_C9_snapshot_order (a : AppState) :
    List.Pairwise (fun x y =>
      getAlertPriority x.alert.status (a.acknowledged.contains x.id) ≤
        getAlertPriority y.alert.status (a.acknowledged.contains y.id) ∧
      (getAlertPriority x.alert.status (a.acknowledged.contains x.id) =
          getAlertPriority y.alert.status (a.acknowledged.contains y.id) →
        y.timestamp ≤ x.timestamp)) (GetAlerts a) ∧
    List.Perm (GetAlerts a) a.alerts := by
  constructor
  · have hs := @List.sorted_mergeSort AlertEntry (getAlertsLe a)
      (getAlertsLe_trans a) (getAlertsLe_total a) a.alerts
    refine hs.imp ?_
    intro x y h
    simp only [getAlertsLe, Bool.or_eq_true, Bool.and_eq_true, decide_eq_true_eq,
      beq_iff_eq] at h
    exact ⟨by omega, fun he => by omega⟩
  · exact List.mergeSort_perm a.alerts (getAlertsLe a)

/-- C9 witness: the snapshot of a concrete store is a permutation of its
entries. -/
theorem claim_C9_snapshot_order_witness :
    List.Perm (GetAlerts clearState) clearState.alerts :=
  (claim_C9_snapshot_order clearState).2

/-! ## Id uniqueness -/

/-- A decimal digit character is not the dash. -/
theorem digitChar_ne_dash {d : Nat} (h : d < 10) : Nat.digitChar d ≠ '-' := by
  interval_cases d <;> decide

/-- `digitVal` inverts `Nat.digitChar` on decimal digits. -/
theorem digitVal_digitChar {d : Nat} (h : d < 10) :
    digitVal (Nat.digitChar d) = d := by
  interval_cases d <;> decide

/-- Folding the decimal-digit valuation over `Nat.toDigitsCore` recovers
the encoded number. -/
theorem toDigitsCore_foldl :
    ∀ (fuel n : Nat) (acc : List Char) (v0 : Nat), n < fuel →
      ∃ k, 0 < k ∧
        (Nat.toDigitsCore 10 fuel n acc).foldl (fun a c => a * 10 + digitVal c) v0 =
          acc.foldl (fun a c => a * 10 + digitVal c) (v0 * 10 ^ k + n) := by
  intro fuel
  induction fuel with
  | zero =>
    intro n acc v0 h
    omega
  | succ fuel ih =>
    intro n acc v0 h
    show ∃ k, 0 < k ∧
      (if n / 10 = 0 then Nat.digitChar (n % 10) :: acc
        else Nat.toDigitsCore 10 fuel (n / 10)
          (Nat.digitChar (n % 10) :: acc)).foldl
        (fun a c => a * 10 + digitVal c) v0 = _
    by_cases h0 : n / 10 = 0
    · rw [if_pos h0]
      refine ⟨1, Nat.one_pos, ?_⟩
      rw [List.foldl_cons]
      show List.foldl _ (v0 * 10 + digitVal (Nat.digitChar (n % 10))) acc = _
      rw [digitVal_digitChar (Nat.mod_lt n (by omega))]
      congr 1
      have hn : n % 10 = n := Nat.mod_eq_of_lt (by omega)
      rw [pow_one, hn]
    · rw [if_neg h0]
      have hlt : n / 10 < fuel := by
        have h1 : n / 10 < n := Nat.div_lt_self (by omega) (by omega)
        omega
      obtain ⟨k, hk, hrec⟩ := ih (n / 10) (Nat.digitChar (n % 10) :: acc) v0 hlt
      refine ⟨k + 1, by omega, ?_⟩
      rw [hrec, List.foldl_cons]
      show List.foldl _ ((v0 * 10 ^ k + n / 10) * 10 + digitVal (Nat.digitChar (n % 10))) acc = _
      rw [digitVal_digitChar (Nat.mod_lt n (by omega))]
      congr 1
      have hdm : n / 10 * 10 + n % 10 = n := by omega
      calc (v0 * 10 ^ k + n / 10) * 10 + n % 10
          = v0 * (10 ^ k * 10) + (n / 10 * 10 + n % 10) := by ring
        _ = v0 * 10 ^ (k + 1) + n := by rw [hdm, pow_succ]

/-- The decimal value of `Nat.toDigits 10 n` is `n`. -/
theorem toDigits_val (n : Nat) :
    (Nat.toDigits 10 n).foldl (fun a c => a * 10 + digitVal c) 0 = n := by
  obtain ⟨k, -, h⟩ := toDigitsCore_foldl (n + 1) n [] 0 (Nat.lt_succ_self n)
  show (Nat.toDigitsCore 10 (n + 1) n []).foldl _ 0 = n
  rw [h]
  simp

/-- `Nat.repr` is injective at the level of character data. -/
theorem repr_data_inj {m n : Nat}
    (h : (Nat.repr m).data = (Nat.repr n).data) : m = n := by
  have hm : (Nat.repr m).data = Nat.toDigits 10 m := rfl
  have hn : (Nat.repr n).data = Nat.toDigits 10 n := rfl
  rw [hm, hn] at h
  rw [← toDigits_val m, ← toDigits_val n, h]

/-- No dash appears in `Nat.toDigitsCore` output over a dash-free
accumulator. -/
theorem toDigitsCore_no_dash :
    ∀ (fuel n : Nat) (acc : List Char), '-' ∉ acc →
      '-' ∉ Nat.toDigitsCore 10 fuel n acc := by
  intro fuel
  induction fuel with
  | zero =>
    intro n acc h
    exact h
  | succ fuel ih =>
    intro n acc h
    show '-' ∉ (if n / 10 = 0 then Nat.digitChar (n % 10) :: acc
      else Nat.toDigitsCore 10 fuel (n / 10) (Nat.digitChar (n % 10) :: acc))
    have hd : '-' ∉ Nat.digitChar (n % 10) :: acc := by
      intro hmem
      rcases List.mem_cons.mp hmem with hmem | hmem
      · exact digitChar_ne_dash (Nat.mod_lt n (by omega)) hmem.symm
      · exact h hmem
    by_cases h0 : n / 10 = 0
    · rw [if_pos h0]
      exact hd
    · rw [if_neg h0]
      exact ih (n / 10) _ hd

/-- No dash appears in the decimal representation of a natural number. -/
theorem repr_no_dash (n : Nat) : '-' ∉ (Nat.repr n).data :=
  toDigitsCore_no_dash (n + 1) n [] (by simp)

/-- A character list with a single marked dash splits uniquely. -/
theorem append_dash_inj :
    ∀ (x y u v : List Char), '-' ∉ x → '-' ∉ y →
      x ++ '-' :: u = y ++ '-' :: v → x = y ∧ u = v := by
  intro x
  induction x with
  | nil =>
    intro y u v _ hy h
    cases y with
    | nil => simpa using h
    | cons c y =>
      simp only [List.nil_append, List.cons_append, List.cons.injEq] at h
      exact absurd (List.mem_cons.mpr (Or.inl h.1)) hy
  | cons c x ih =>
    intro y u v hx hy h
    cases y with
    | nil =>
      simp only [List.nil_append, List.cons_append, List.cons.injEq] at h
      exact absurd (List.mem_cons.mpr (Or.inl h.1.symm)) hx
    | cons d y =>
      simp only [List.cons_append, List.cons.injEq] at h
      obtain ⟨hcd, hrest⟩ := h
      have hx' : '-' ∉ x := fun hm => hx (List.mem_cons_of_mem _ hm)
      have hy' : '-' ∉ y := fun hm => hy (List.mem_cons_of_mem _ hm)
      obtain ⟨h1, h2⟩ := ih y u v hx' hy' hrest
      exact ⟨by rw [hcd, h1], h2⟩

/-- `mkId` is injective in both components. -/
theorem mkId_inj {b1 i1 b2 i2 : Nat} (h : mkId b1 i1 = mkId b2 i2) :
    b1 = b2 ∧ i1 = i2 := by
  have h2 := congrArg String.data h
  have hd : (Nat.repr b1).data ++ '-' :: (Nat.repr i1).data =
      (Nat.repr b2).data ++ '-' :: (Nat.repr i2).data := by
    simpa [mkId, String.data_append] using h2
  obtain ⟨ha, hb⟩ :=
    append_dash_inj _ _ _ _ (repr_no_dash b1) (repr_no_dash b2) hd
  exact ⟨repr_data_inj ha, repr_data_inj hb⟩

/-- The entry-creation loop mints pairwise-distinct fresh ids and only
appends in front of a sub-selection of the previous entries. -/
theorem ingestStep_shape (a : AppState) (t : Nat) (p : WebhookPayload) :
    ∃ newEntries old,
      (ingestStep a t p).alerts = newEntries ++ old ∧
      List.Sublist old a.alerts ∧
      (∀ e ∈ newEntries, ∃ i, e.id = mkId t i) ∧
      ((newEntries.map fun e => e.id).Nodup) := by
  have hmap : ∀ (l : List Alert),
      (((l.enum.map fun q => mkId t q.1).reverse)).Nodup := by
    intro l
    rw [List.nodup_reverse]
    have h1 : (l.enum.map fun q => mkId t q.1) =
        (l.enum.map Prod.fst).map (mkId t) := by
      rw [List.map_map]
      rfl
    rw [h1]
    refine List.Nodup.map (fun i j hij => (mkId_inj hij).2)
      (List.nodup_enum_map_fst l)
  unfold ingestStep
  by_cases hc : (p.status == "resolved" || hasResolvedAlerts p.alerts) = true
  · simp only [hc, if_true]
    obtain ⟨new, h1, -, h3, h4⟩ := addEntries_shape t
      (removeMatchingFiringAlerts a p.alerts).2 p.alerts.enum
      (removeMatchingFiringAlerts a p.alerts).1.alerts
    refine ⟨new, (removeMatchingFiringAlerts a p.alerts).1.alerts, h1, ?_, ?_, ?_⟩
    · rw [reconcile_alerts_eq]
      exact List.filter_sublist _
    · intro e he
      obtain ⟨-, q, -, hq, -⟩ := h3 e he
      exact ⟨q.1, hq⟩
    · exact h4.nodup (hmap p.alerts)
  · have hcf : (p.status == "resolved" || hasResolvedAlerts p.alerts) = false :=
      Bool.eq_false_iff.mpr hc
    simp only [hcf, Bool.false_eq_true, if_false]
    obtain ⟨new, h1, -, h3, h4⟩ := addEntries_shape t [] p.alerts.enum a.alerts
    refine ⟨new, a.alerts, h1, List.Sublist.refl _, ?_, ?_⟩
    · intro e he
      obtain ⟨-, q, -, hq, -⟩ := h3 e he
      exact ⟨q.1, hq⟩
    · exact h4.nodup (hmap p.alerts)

/-- The invariant carried along a run: ids are decompositions below the
time bound, and pairwise distinct. -/
theorem run_inv :
    ∀ (ops : List Op) (a : AppState) (t0 : Nat),
      timesMono t0 ops = true →
      IdsBounded a t0 →
      ((a.alerts.map fun e => e.id).Nodup) →
      ∃ t1, IdsBounded (run a ops) t1 ∧
        (((run a ops).alerts.map fun e => e.id).Nodup) := by
  intro ops
  induction ops with
  | nil =>
    intro a t0 _ hb hn
    exact ⟨t0, hb, hn⟩
  | cons op rest ih =>
    intro a t0 hm hb hn
    cases op with
    | ingest t p =>
      have hm' : (decide (t0 ≤ t) && timesMono (t + 1) rest) = true := hm
      rw [Bool.and_eq_true, decide_eq_true_eq] at hm'
      obtain ⟨ht0, hmrest⟩ := hm'
      obtain ⟨new, old, hshape, hsub, hfresh, hnodupnew⟩ := ingestStep_shape a t p
      have hpost : List.Sublist (AddWebhook a t p).alerts (new ++ old) := by
        rw [(AddWebhook_alerts_take a t p).1, hshape]
        exact List.take_sublist _ _
      have hb' : IdsBounded (AddWebhook a t p) (t + 1) := by
        intro e he
        rcases List.mem_append.mp (hpost.subset he) with he' | he'
        · obtain ⟨i, hi⟩ := hfresh e he'
          exact ⟨t, i, hi, by omega⟩
        · obtain ⟨b, i, hbi, hlt⟩ := hb e (hsub.subset he')
          exact ⟨b, i, hbi, by omega⟩
      have hn' : (((AddWebhook a t p).alerts.map fun e => e.id)).Nodup := by
        refine (hpost.map fun e => e.id).nodup ?_
        rw [List.map_append, List.nodup_append]
        refine ⟨hnodupnew, (hsub.map fun e => e.id).nodup hn, ?_⟩
        intro x hxnew hxold
        obtain ⟨e, he, hex⟩ := List.mem_map.mp hxnew
        obtain ⟨e', he', hex'⟩ := List.mem_map.mp hxold
        obtain ⟨i, hi⟩ := hfresh e he
        obtain ⟨b, j, hbj, hblt⟩ := hb e' (hsub.subset he')
        have : mkId t i = mkId b j := by
          rw [← hi, hex, ← hex', hbj]
        have htb := (mkId_inj this).1
        omega
      exact ih (AddWebhook a t p) (t + 1) hmrest hb' hn'
    | ack alertID =>
      exact ih (Acknowledge a alertID) t0 hm hb hn
    | clear =>
      have hsub : List.Sublist (ClearAcknowledgedAndResolved a).1.alerts a.alerts := by
        rw [clear_alerts_eq a hn]
        exact List.filter_sublist _
      have hb' : IdsBounded (ClearAcknowledgedAndResolved a).1 t0 :=
        fun e he => hb e (hsub.subset he)
      have hn' : ((((ClearAcknowledgedAndResolved a).1.alerts.map fun e => e.id)).Nodup) :=
        (hsub.map fun e => e.id).nodup hn
      exact ih (ClearAcknowledgedAndResolved a).1 t0 hm hb' hn'

/-- C7: along any interleaving of operations whose ingest timestamps
strictly increase (successive `time.Now().UnixNano()` reads), every
retained entry's id is distinct from every other retained entry's id. -/
theorem claim_C7_unique_ids (maxSize : Nat) (ops : List Op)
    (h : timesMono 0 ops = true) :
    (((run (NewAppState maxSize) ops).alerts.map fun e => e.id)).Nodup := by
  obtain ⟨t1, -, hn⟩ := run_inv ops (NewAppState maxSize) 0 h
    (fun e he => absurd he (List.not_mem_nil e)) List.nodup_nil
  exact hn

/-- C7 witness: two ingests at increasing times produce three entries with
pairwise-distinct ids. -/
theorem claim_C7_unique_ids_witness :
    (((run (NewAppState 10)
      [Op.ingest 3 (WebhookPayload.mk "firing" [firingA]),
       Op.ingest 7 (WebhookPayload.mk "firing" [firingA, firingB])]).alerts.map
        fun e => e.id)).Nodup :=
  claim_C7_unique_ids 10 _ (by decide)

end WakeMeUp
